import Mathlib

/-!
Shallow embedding of `cortex-m-systick` (`src/lib.rs`), a SysTick-based
time base for Cortex-M. The crate's global state (`SYSTICK`,
`SYSTICK_COUNTER`, `CLOCK_FREQ`, `TICK_FREQ`, `CALLBACK_FN`) is gathered
into a `State` record; each public function becomes a Lean function on
`State`. Machine integers are `Nat` with explicit `% 2^32` / `% 2^24`
where the source works in `u32` / the 24-bit SysTick registers.
Arithmetic follows release-build semantics: `u32` overflow wraps
(`AtomicU32::fetch_add` wraps in every build mode). Fallible paths
(`Option::unwrap` on the unbound peripheral, integer division by zero)
return `Except Panic`.
-/

namespace SysTickCrate

/-- Panic reasons that can occur in the embedded functions: `unwrapNone`
models `Option::unwrap` on `None` (the peripheral is not bound), and
`divByZero` models Rust's integer division-by-zero panic. -/
inductive Panic where
  | unwrapNone
  | divByZero
deriving DecidableEq, Repr

/-- Wrapping `u32` subtraction `a - b` for `a, b < 2^32`, as performed by
release-mode Rust on `u32` operands. -/
def wsub32 (a b : ℕ) : ℕ :=
  (2 ^ 32 + a - b) % 2 ^ 32

/-- The SysTick peripheral registers used by the crate: `rvr` is the
24-bit reload register, `cvr` the current-value (countdown) register,
`countflag` the read-clears-on-read COUNTFLAG bit of the status
register, and `enabled` the counter-enable bit of the control register. -/
structure Syst where
  rvr : ℕ
  cvr : ℕ
  countflag : Bool
  enabled : Bool
deriving DecidableEq, Repr

/-- The crate's global state: `systick` models the
`Mutex<Cell<Option<SYST>>>` holding the peripheral, `counter` the
`AtomicU32` tick counter, `clockFreq` / `tickFreq` the stored
frequencies, and `callback` the optional callback slot (callback
functions are represented by an identifier). -/
structure State where
  systick : Option Syst
  counter : ℕ
  clockFreq : ℕ
  tickFreq : ℕ
  callback : Option ℕ
deriving DecidableEq, Repr

/-- Embedding of `init_with_frequency` (`lib.rs:35-60`): panics with a
division by zero when `tick_freq = 0`; otherwise computes
`reload = clock_freq / tick_freq - 1` in wrapping `u32` arithmetic,
writes it to the 24-bit reload register, clears the current-value
register (which also clears COUNTFLAG), zeroes the tick counter, stores
both frequencies and binds the peripheral. The counter-enable bit is
not touched, so counting does not start. -/
def init_with_frequency (s : State) (syst : Syst) (clock_freq tick_freq : ℕ) :
    Except Panic State :=
  if tick_freq = 0 then .error .divByZero
  else
    let reload := wsub32 (clock_freq / tick_freq) 1
    .ok { systick := some { rvr := reload % 2 ^ 24, cvr := 0, countflag := false,
                            enabled := syst.enabled },
          counter := 0, clockFreq := clock_freq, tickFreq := tick_freq,
          callback := s.callback }

/-- Embedding of `free` (`lib.rs:66-68`): takes the peripheral out of the
cell and unwraps it, panicking when it is not bound. -/
def free (s : State) : Except Panic (Syst × State) :=
  match s.systick with
  | none => .error .unwrapNone
  | some sy => .ok (sy, { s with systick := none })

/-- Embedding of `start` (`lib.rs:74-80`): unwraps the peripheral
(panicking when unbound) and sets the counter-enable bit. -/
def start (s : State) : Except Panic State :=
  match s.systick with
  | none => .error .unwrapNone
  | some sy => .ok { s with systick := some { sy with enabled := true } }

/-- Embedding of `stop` (`lib.rs:83-89`): unwraps the peripheral
(panicking when unbound) and clears the counter-enable bit. -/
def stop (s : State) : Except Panic State :=
  match s.systick with
  | none => .error .unwrapNone
  | some sy => .ok { s with systick := some { sy with enabled := false } }

/-- Embedding of `reset` (`lib.rs:92-99`): unwraps the peripheral
(panicking when unbound), clears the current-value register (which also
clears COUNTFLAG) and zeroes the tick counter, all in one critical
section. -/
def reset (s : State) : Except Panic State :=
  match s.systick with
  | none => .error .unwrapNone
  | some sy =>
    .ok { s with systick := some { sy with cvr := 0, countflag := false },
                 counter := 0 }

/-- Embedding of `ticks` (`lib.rs:102-104`): a single atomic load of the
tick counter. It has no failure path; the `Except` shape is kept uniform
with the other operations to make "returns a value without trapping"
expressible. -/
def ticks (s : State) : Except Panic ℕ :=
  .ok s.counter

/-- Embedding of `clock_cycles` (`lib.rs:107-127`): inside one critical
section, loads the tick counter, unwraps the peripheral (panicking when
unbound), reads `load` from the reload register and `val` from the
current-value register, then reads-and-clears COUNTFLAG; if it was set,
the local tick count is incremented by one (wrapping `u32` addition).
The result `(load + 1) * ticks + (load - val)` is computed in `u64`;
`load - val` is the wrapping `u32` subtraction of the source. -/
def clock_cycles (s : State) : Except Panic (ℕ × State) :=
  match s.systick with
  | none => .error .unwrapNone
  | some sy =>
    let load := sy.rvr
    let val := sy.cvr
    let t := if sy.countflag then (s.counter + 1) % 2 ^ 32 else s.counter
    .ok (((load + 1) * t + wsub32 load val) % 2 ^ 64,
         { s with systick := some { sy with countflag := false } })

/-- Embedding of `millis` (`lib.rs:130-132`): computes
`ticks() * 1000 / tick_freq` in `u64` (panicking with a division by zero
when the stored tick frequency is `0`) and truncates the result to
`u32`. -/
def millis (s : State) : Except Panic ℕ :=
  if s.tickFreq = 0 then .error .divByZero
  else .ok (s.counter * 1000 / s.tickFreq % 2 ^ 32)

/-- Embedding of `micros` (`lib.rs:135-139`): first computes
`sysclock_mhz = clock_freq / 1_000_000` (which cannot panic), then calls
`clock_cycles()` (which panics first if the peripheral is unbound), and
finally divides, panicking with a division by zero when
`sysclock_mhz = 0`. -/
def micros (s : State) : Except Panic (ℕ × State) :=
  let sysclock_mhz := s.clockFreq / 1000000
  match clock_cycles s with
  | .error e => .error e
  | .ok (v, s') =>
    if sysclock_mhz = 0 then .error .divByZero
    else .ok (v / sysclock_mhz, s')

/-- Embedding of `set_callback` (`lib.rs:145-149`): stores the callback
in the slot. -/
def set_callback (s : State) (cb : ℕ) : State :=
  { s with callback := some cb }

/-- Embedding of `clear_callback` (`lib.rs:152-156`): empties the
callback slot. -/
def clear_callback (s : State) : State :=
  { s with callback := none }

/-- Embedding of the `SysTick` exception handler (`lib.rs:158-177`):
inside one critical section it increments the tick counter
(`fetch_add` wraps modulo `2^32` in every build mode), reads COUNTFLAG
to clear it (unwrapping the peripheral, panicking when unbound), and, if
a callback is registered, invokes it with the freshly re-loaded counter
value. The second component is the argument passed to the callback, or
`none` when no callback is registered. -/
def SysTick (s : State) : Except Panic (State × Option ℕ) :=
  match s.systick with
  | none => .error .unwrapNone
  | some sy =>
    let c := (s.counter + 1) % 2 ^ 32
    .ok ({ s with counter := c, systick := some { sy with countflag := false } },
         s.callback.map (fun _ => c))

/-- Iterates the `SysTick` handler `n` times (one invocation per
underflow event), collecting the arguments of every callback
invocation in order. -/
def runHandlers (s : State) : ℕ → Except Panic (State × List ℕ)
  | 0 => .ok (s, [])
  | n + 1 =>
    match SysTick s with
    | .error e => .error e
    | .ok (s', arg) =>
      match runHandlers s' n with
      | .error e => .error e
      | .ok (s'', log) => .ok (s'', arg.toList ++ log)

/-- Embedding of the callback section of the handler (`lib.rs:170-175`):
the slot contents are taken out (`replace(None)` leaves the slot empty),
the callback — if present — runs while the slot is empty and may itself
store `cbWrite` into the slot (`some w` models a `set_callback` /
`clear_callback` performed inside the callback, `none` models a callback
that leaves the slot alone), and finally the handler stores the taken
value back unconditionally. Returns the final slot contents and, when
the callback ran, the slot contents it could observe. -/
def callbackSection (entry : Option ℕ) (cbWrite : Option (Option ℕ)) :
    Option ℕ × Option (Option ℕ) :=
  let taken := entry
  let slotDuring : Option ℕ := none
  match taken with
  | some _ =>
    let observed := some slotDuring
    let slotAfterCb := match cbWrite with
      | some w => w
      | none => slotDuring
    let _ := slotAfterCb
    (taken, observed)
  | none => (taken, none)

/-!
Interleaving machine for the two execution contexts (mainline and the
SysTick exception). A machine state is the peripheral plus the tick
counter; events are single hardware clock cycles (`tick`), deliveries of
the pended SysTick exception (`irq`), and the two mainline reads
(`qcycles` for `clock_cycles()`, `qticks` for `ticks()`). Side
conditions on the events encode the Cortex-M scheduling the crate relies
on: a pended exception is delivered before any further mainline step
(so a mainline read can begin with the wrap pending only when the wrap
happened inside its own masked section, i.e. COUNTFLAG is still set),
and a wrap is serviced before the next wrap occurs (no lost ticks).
The counter is assumed running throughout (between `start` and `stop`).
-/

/-- Events of the interleaving machine. -/
inductive Ev where
  | tick
  | irq
  | qcycles
  | qticks
deriving DecidableEq, Repr

/-- Machine state: the live peripheral registers, whether the SysTick
exception is pended, and the `u32` tick counter. -/
structure MState where
  syst : Syst
  pending : Bool
  cnt : ℕ
deriving DecidableEq, Repr

/-- View of a machine state as crate state (frequencies and callback play
no role in the reconstruction algorithm). -/
def MState.toState (m : MState) : State :=
  { systick := some m.syst, counter := m.cnt, clockFreq := 0, tickFreq := 0,
    callback := none }

/-- One machine step. `tick` is the hardware: the register counts down,
and at `0` it reloads to `rvr`, sets COUNTFLAG and pends the exception
(a wrap while the previous one is still unserviced is rejected — the
no-lost-tick scheduling assumption). `irq` delivers the pended
exception, performing the counter increment and COUNTFLAG clear of the
`SysTick` handler. `qcycles` performs `clock_cycles()` and emits its
value in the first output slot; `qticks` performs `ticks()` and emits
its value in the second; both are rejected while an exception is pended
whose COUNTFLAG the mainline section did not itself observe, since the
hardware would deliver the exception first. -/
def mstep (m : MState) : Ev → Option (MState × Option ℕ × Option ℕ)
  | .tick =>
    if m.syst.cvr = 0 then
      if m.pending then none
      else
        let sy := { m.syst with cvr := m.syst.rvr, countflag := true }
        some ({ m with syst := sy, pending := true }, none, none)
    else some ({ m with syst := { m.syst with cvr := m.syst.cvr - 1 } }, none, none)
  | .irq =>
    if m.pending then
      let sy := { m.syst with countflag := false }
      some ({ m with syst := sy, pending := false, cnt := (m.cnt + 1) % 2 ^ 32 },
            none, none)
    else none
  | .qcycles =>
    if m.pending && !m.syst.countflag then none
    else
      match clock_cycles m.toState with
      | .error _ => none
      | .ok (v, _) =>
        some ({ m with syst := { m.syst with countflag := false } }, some v, none)
  | .qticks =>
    if m.pending then none
    else
      match ticks m.toState with
      | .error _ => none
      | .ok v => some (m, none, some v)

/-- Runs a list of events, collecting the outputs of all `qcycles` events
and of all `qticks` events (in order) into two lists. -/
def mrun (m : MState) : List Ev → Option (MState × List ℕ × List ℕ)
  | [] => some (m, [], [])
  | e :: evs =>
    match mstep m e with
    | none => none
    | some (m', oc, ot) =>
      match mrun m' evs with
      | none => none
      | some (m'', cs, ts) => some (m'', oc.toList ++ cs, ot.toList ++ ts)

/-- Number of underflow events (ticks taken with the register at `0`)
along a valid run. -/
def wrapsIn (m : MState) : List Ev → ℕ
  | [] => 0
  | e :: evs =>
    match mstep m e with
    | none => 0
    | some (m', _, _) =>
      (if e = Ev.tick ∧ m.syst.cvr = 0 then 1 else 0) + wrapsIn m' evs

/-- Machine-state invariant: COUNTFLAG is only set while the exception is
pended, the countdown register never exceeds the reload register, and
the reload register fits its 24-bit width. -/
def MInv (m : MState) : Prop :=
  (m.syst.countflag = true → m.pending = true) ∧ m.syst.cvr ≤ m.syst.rvr ∧
    m.syst.rvr < 2 ^ 24

/-- Elapsed-cycle potential of a machine state: every committed or pended
tick contributes a full period, the register contributes the partial
period. Each `qcycles` output equals the potential at its moment, and
the potential never decreases along a step. -/
def pot (m : MState) : ℕ :=
  (m.syst.rvr + 1) * (m.cnt + (if m.pending then 1 else 0)) +
    (m.syst.rvr - m.syst.cvr)

/-! Helper lemmas. -/

lemma wsub32_of_le {a b : ℕ} (hba : b ≤ a) (ha : a < 2 ^ 32) :
    wsub32 a b = a - b := by
  unfold wsub32
  have h1 : 2 ^ 32 + a - b = 2 ^ 32 + (a - b) := by omega
  rw [h1, Nat.add_mod_left]
  exact Nat.mod_eq_of_lt (by omega)

/-- Closed form of `clock_cycles` on a bound peripheral with in-range
registers: the `u32` subtraction does not wrap and the `u64` arithmetic
does not overflow. -/
lemma clock_cycles_eq {s : State} {sy : Syst} (hs : s.systick = some sy)
    (hcv : sy.cvr ≤ sy.rvr) (hrv : sy.rvr < 2 ^ 24) (hc : s.counter < 2 ^ 32) :
    clock_cycles s =
      .ok ((sy.rvr + 1) *
            (if sy.countflag then (s.counter + 1) % 2 ^ 32 else s.counter) +
            (sy.rvr - sy.cvr),
        { s with systick := some { sy with countflag := false } }) := by
  unfold clock_cycles
  rw [hs]
  have hw : wsub32 sy.rvr sy.cvr = sy.rvr - sy.cvr :=
    wsub32_of_le hcv (by omega)
  have htlt : (if sy.countflag then (s.counter + 1) % 2 ^ 32 else s.counter) <
      2 ^ 32 := by
    split
    · exact Nat.mod_lt _ (by norm_num)
    · exact hc
  have hb : (sy.rvr + 1) *
      (if sy.countflag then (s.counter + 1) % 2 ^ 32 else s.counter) +
      (sy.rvr - sy.cvr) < 2 ^ 64 := by
    have h2 : (sy.rvr + 1) *
        (if sy.countflag then (s.counter + 1) % 2 ^ 32 else s.counter) ≤
        2 ^ 24 * (2 ^ 32 - 1) := Nat.mul_le_mul (by omega) (by omega)
    omega
  simp only [hw, Nat.mod_eq_of_lt hb]

/-- Closed form of the `SysTick` handler on a bound peripheral. -/
lemma SysTick_eq {s : State} {sy : Syst} (hs : s.systick = some sy) :
    SysTick s =
      .ok ({ s with counter := (s.counter + 1) % 2 ^ 32,
                    systick := some { sy with countflag := false } },
        s.callback.map (fun _ => (s.counter + 1) % 2 ^ 32)) := by
  unfold SysTick
  rw [hs]

lemma syst_clear_countflag {sy : Syst} (hcf : sy.countflag = false) :
    { sy with countflag := false } = sy := by
  cases sy
  simp_all

lemma runHandlers_succ (s : State) (n : ℕ) {s' : State} {arg : Option ℕ}
    (h : SysTick s = .ok (s', arg)) :
    runHandlers s (n + 1) =
      match runHandlers s' n with
      | .error e => .error e
      | .ok (s'', log) => .ok (s'', arg.toList ++ log) := by
  simp only [runHandlers]
  rw [h]

/-- Iterating the handler with no registered callback adds the event
count to the tick counter modulo `2^32` and produces no callback
invocations. -/
lemma runHandlers_no_callback {sy : Syst} (hcf : sy.countflag = false) :
    ∀ (n : ℕ) (s : State), s.systick = some sy → s.callback = none →
      s.counter < 2 ^ 32 →
      runHandlers s n = .ok ({ s with counter := (s.counter + n) % 2 ^ 32 }, []) := by
  intro n
  induction n with
  | zero =>
    intro s hs hcb hc
    have h0 : (s.counter + 0) % 2 ^ 32 = s.counter := by omega
    rw [h0]
    rfl
  | succ n ih =>
    intro s hs hcb hc
    have hstep := SysTick_eq hs
    rw [syst_clear_countflag hcf, hcb] at hstep
    have hrec := ih { s with counter := (s.counter + 1) % 2 ^ 32, systick := some sy }
      rfl hcb (Nat.mod_lt _ (by norm_num))
    rw [hcb] at hrec
    rw [runHandlers_succ _ n hstep, hrec]
    have hcnt : ((s.counter + 1) % 2 ^ 32 + n) % 2 ^ 32 =
        (s.counter + (n + 1)) % 2 ^ 32 := by omega
    simp [hcnt, hs, hcb]
    omega

/-- Iterating the handler with a registered callback adds the event count
to the tick counter modulo `2^32` and invokes the callback once per
event, the `k`-th invocation (0-indexed) receiving
`(counter + k + 1) % 2^32`. -/
lemma runHandlers_with_callback {sy : Syst} {cb : ℕ} (hcf : sy.countflag = false) :
    ∀ (n : ℕ) (s : State), s.systick = some sy → s.callback = some cb →
      s.counter < 2 ^ 32 →
      runHandlers s n = .ok ({ s with counter := (s.counter + n) % 2 ^ 32 },
        (List.range n).map (fun k => (s.counter + k + 1) % 2 ^ 32)) := by
  intro n
  induction n with
  | zero =>
    intro s hs hcb hc
    have h0 : (s.counter + 0) % 2 ^ 32 = s.counter := by omega
    rw [h0]
    rfl
  | succ n ih =>
    intro s hs hcb hc
    have hstep := SysTick_eq hs
    rw [syst_clear_countflag hcf, hcb] at hstep
    have hrec := ih { s with counter := (s.counter + 1) % 2 ^ 32, systick := some sy }
      rfl hcb (Nat.mod_lt _ (by norm_num))
    rw [hcb] at hrec
    rw [runHandlers_succ _ n hstep, hrec]
    have hcnt : ((s.counter + 1) % 2 ^ 32 + n) % 2 ^ 32 =
        (s.counter + (n + 1)) % 2 ^ 32 := by omega
    have hfun : ∀ k : ℕ, ((s.counter + 1) % 2 ^ 32 + k + 1) % 2 ^ 32 =
        (s.counter + (k + 1) + 1) % 2 ^ 32 := by
      intro k
      omega
    rw [List.range_succ_eq_map]
    simp [hcnt, hfun, hs, hcb, List.map_map, Function.comp]
    exact ⟨by omega, fun a _ => by omega⟩

lemma wrapsIn_cons {m m' : MState} {e : Ev} {oc ot : Option ℕ}
    (h : mstep m e = some (m', oc, ot)) (evs : List Ev) :
    wrapsIn m (e :: evs) =
      (if e = Ev.tick ∧ m.syst.cvr = 0 then 1 else 0) + wrapsIn m' evs := by
  simp only [wrapsIn]
  rw [h]

/-- Soundness of a single machine step: the invariant is preserved, the
committed-plus-pended tick total grows exactly on underflows, the
cycle potential and the counter never decrease, every `qcycles` output
equals the potential at its moment and every `qticks` output equals the
counter at its moment. -/
lemma mstep_sound {m m' : MState} {e : Ev} {oc ot : Option ℕ}
    (hinv : MInv m) (h : mstep m e = some (m', oc, ot))
    (hB : m.cnt + (if m.pending then 1 else 0) < 2 ^ 32) :
    MInv m' ∧
      m'.cnt + (if m'.pending then 1 else 0) =
        m.cnt + (if m.pending then 1 else 0) +
          (if e = Ev.tick ∧ m.syst.cvr = 0 then 1 else 0) ∧
      pot m ≤ pot m' ∧ m.cnt ≤ m'.cnt ∧
      (∀ v, oc = some v → v = pot m) ∧ (∀ v, ot = some v → v = m.cnt) := by
  obtain ⟨hfp, hcr, hr24⟩ := hinv
  cases e with
  | tick =>
    simp only [mstep] at h
    split_ifs at h with hcv hp
    · have h' := Option.some.inj h
      obtain ⟨rfl, rfl, rfl⟩ : m' =
          { m with
            syst := { m.syst with cvr := m.syst.rvr, countflag := true },
            pending := true } ∧ oc = none ∧ ot = none :=
        ⟨(congrArg Prod.fst h').symm, (congrArg (fun p => p.2.1) h').symm,
          (congrArg (fun p => p.2.2) h').symm⟩
      have hpend : m.pending = false := by simpa using hp
      have hmul : (m.syst.rvr + 1) * (m.cnt + 1) =
          (m.syst.rvr + 1) * m.cnt + (m.syst.rvr + 1) := by ring
      refine ⟨⟨fun _ => rfl, le_refl _, hr24⟩, ?_, ?_, le_refl _,
        fun v hv => Option.noConfusion hv, fun v hv => Option.noConfusion hv⟩
      · simp [hpend, hcv]
      · simp only [pot, hpend, hcv]
        simp only [Bool.false_eq_true, if_false, if_true, Nat.add_zero,
          Nat.sub_zero, Nat.sub_self, Nat.add_zero]
        rw [hmul]
        have hle : m.syst.rvr ≤ m.syst.rvr + 1 := by omega
        exact le_trans (Nat.add_le_add_left (le_refl _) _)
          (Nat.add_le_add_left hle _)
    · have h' := Option.some.inj h
      obtain ⟨rfl, rfl, rfl⟩ : m' =
          { m with syst := { m.syst with cvr := m.syst.cvr - 1 } } ∧
            oc = none ∧ ot = none :=
        ⟨(congrArg Prod.fst h').symm, (congrArg (fun p => p.2.1) h').symm,
          (congrArg (fun p => p.2.2) h').symm⟩
      refine ⟨⟨hfp, by simp; omega, hr24⟩, ?_, ?_, le_refl _,
        fun v hv => Option.noConfusion hv, fun v hv => Option.noConfusion hv⟩
      · simp [hcv]
      · simp only [pot]
        exact Nat.add_le_add_left (by omega) _
  | irq =>
    simp only [mstep] at h
    split_ifs at h with hp
    have h' := Option.some.inj h
    obtain ⟨rfl, rfl, rfl⟩ : m' =
        { m with
          syst := { m.syst with countflag := false },
          pending := false, cnt := (m.cnt + 1) % 2 ^ 32 } ∧
          oc = none ∧ ot = none :=
      ⟨(congrArg Prod.fst h').symm, (congrArg (fun p => p.2.1) h').symm,
        (congrArg (fun p => p.2.2) h').symm⟩
    have hc1 : m.cnt + 1 < 2 ^ 32 := by simpa [hp] using hB
    have hmod : (m.cnt + 1) % 2 ^ 32 = m.cnt + 1 := Nat.mod_eq_of_lt hc1
    refine ⟨⟨fun hx => Bool.noConfusion hx, hcr, hr24⟩, ?_, ?_, ?_,
      fun v hv => Option.noConfusion hv, fun v hv => Option.noConfusion hv⟩
    · simp [hp, hmod]
      omega
    · simp only [pot, hp, hmod]
      simp
    · simp only []
      omega
  | qcycles =>
    simp only [mstep] at h
    split_ifs at h with hg
    have hcnt : m.cnt < 2 ^ 32 := by omega
    have hcc := @clock_cycles_eq (MState.toState m) m.syst rfl hcr
      (by omega) hcnt
    rw [hcc] at h
    have h' := Option.some.inj h
    obtain ⟨rfl, rfl, rfl⟩ : m' =
        { m with syst := { m.syst with countflag := false } } ∧
          oc = some ((m.syst.rvr + 1) *
            (if m.syst.countflag then (m.cnt + 1) % 2 ^ 32 else m.cnt) +
            (m.syst.rvr - m.syst.cvr)) ∧ ot = none :=
      ⟨(congrArg Prod.fst h').symm, (congrArg (fun p => p.2.1) h').symm,
        (congrArg (fun p => p.2.2) h').symm⟩
    refine ⟨⟨fun hx => Bool.noConfusion hx, hcr, hr24⟩, by simp, le_refl _,
      le_refl _, ?_, fun v hv => Option.noConfusion hv⟩
    intro v hv
    have hv' := (Option.some.inj hv).symm
    subst hv'
    cases hcf : m.syst.countflag with
    | false =>
      have hpf : m.pending = false := by
        cases hmp : m.pending
        · rfl
        · exact absurd (by simp [hmp, hcf]) hg
      simp [pot, hcf, hpf]
    | true =>
      have hpt : m.pending = true := hfp hcf
      have hc1 : m.cnt + 1 < 2 ^ 32 := by simpa [hpt] using hB
      have hmodq : (m.cnt + 1) % 2 ^ 32 = m.cnt + 1 := Nat.mod_eq_of_lt hc1
      simp [pot, hcf, hpt, hmodq]
      omega
  | qticks =>
    simp only [mstep] at h
    split_ifs at h with hp
    have h' := Option.some.inj h
    obtain ⟨rfl, rfl, rfl⟩ : m' = m ∧ oc = none ∧ ot = some m.cnt :=
      ⟨(congrArg Prod.fst h').symm, (congrArg (fun p => p.2.1) h').symm,
        (congrArg (fun p => p.2.2) h').symm⟩
    refine ⟨⟨hfp, hcr, hr24⟩, rfl, le_refl _, le_refl _,
      fun v hv => Option.noConfusion hv, ?_⟩
    intro v hv
    exact (Option.some.inj hv).symm

/-- Monotonicity along any valid run: provided the committed, pended and
future underflow total stays below `2^32` (so the `u32` tick counter
never wraps), the `qcycles` outputs form a non-decreasing sequence
bounded below by the initial potential, and likewise the `qticks`
outputs are non-decreasing and bounded below by the initial counter. -/
lemma mrun_mono :
    ∀ (evs : List Ev) (m mf : MState) (cs ts : List ℕ), MInv m →
      mrun m evs = some (mf, cs, ts) →
      m.cnt + (if m.pending then 1 else 0) + wrapsIn m evs < 2 ^ 32 →
      List.Chain' (· ≤ ·) cs ∧ (∀ v ∈ cs, pot m ≤ v) ∧
        List.Chain' (· ≤ ·) ts ∧ (∀ v ∈ ts, m.cnt ≤ v) := by
  intro evs
  induction evs with
  | nil =>
    intro m mf cs ts hinv hrun hb
    simp only [mrun] at hrun
    have h' := Option.some.inj hrun
    obtain ⟨rfl, rfl⟩ : cs = [] ∧ ts = [] :=
      ⟨(congrArg (fun p => p.2.1) h').symm, (congrArg (fun p => p.2.2) h').symm⟩
    exact ⟨List.chain'_nil, by simp, List.chain'_nil, by simp⟩
  | cons e evs ih =>
    intro m mf cs ts hinv hrun hb
    cases hstep : mstep m e with
    | none =>
      simp only [mrun, hstep] at hrun
      exact Option.noConfusion hrun
    | some x =>
      obtain ⟨m', oc, ot⟩ := x
      cases hrec : mrun m' evs with
      | none =>
        simp only [mrun, hstep, hrec] at hrun
        exact Option.noConfusion hrun
      | some y =>
        obtain ⟨mf', cs', ts'⟩ := y
        simp only [mrun, hstep, hrec, Option.some.injEq, Prod.mk.injEq] at hrun
        obtain ⟨h1, h2, h3⟩ := hrun
        subst h1 h2 h3
        have hB0 : m.cnt + (if m.pending then 1 else 0) < 2 ^ 32 := by omega
        obtain ⟨hinv', hcount, hpot, hcnt, hoc, hot⟩ := mstep_sound hinv hstep hB0
        rw [wrapsIn_cons hstep evs] at hb
        have hb' : m'.cnt + (if m'.pending then 1 else 0) + wrapsIn m' evs <
            2 ^ 32 := by omega
        obtain ⟨hchain, hlow, htchain, htlow⟩ := ih m' mf' cs' ts' hinv' hrec hb'
        refine ⟨?_, ?_, ?_, ?_⟩
        · cases oc with
          | none => simpa using hchain
          | some v0 =>
            simp only [Option.toList, List.cons_append, List.nil_append]
            rw [List.chain'_cons']
            refine ⟨?_, hchain⟩
            intro y hy
            have hy' : y ∈ cs' := List.mem_of_mem_head? hy
            calc v0 = pot m := hoc v0 rfl
              _ ≤ pot m' := hpot
              _ ≤ y := hlow y hy'
        · intro v hv
          cases oc with
          | none =>
            simp only [Option.toList, List.nil_append] at hv
            exact le_trans hpot (hlow v hv)
          | some v0 =>
            simp only [Option.toList, List.cons_append, List.nil_append,
              List.mem_cons] at hv
            rcases hv with rfl | hv
            · exact le_of_eq (hoc v rfl).symm
            · exact le_trans hpot (hlow v hv)
        · cases ot with
          | none => simpa using htchain
          | some v0 =>
            simp only [Option.toList, List.cons_append, List.nil_append]
            rw [List.chain'_cons']
            refine ⟨?_, htchain⟩
            intro y hy
            have hy' : y ∈ ts' := List.mem_of_mem_head? hy
            calc v0 = m.cnt := hot v0 rfl
              _ ≤ m'.cnt := hcnt
              _ ≤ y := htlow y hy'
        · intro v hv
          cases ot with
          | none =>
            simp only [Option.toList, List.nil_append] at hv
            exact le_trans hcnt (htlow v hv)
          | some v0 =>
            simp only [Option.toList, List.cons_append, List.nil_append,
              List.mem_cons] at hv
            rcases hv with rfl | hv
            · exact le_of_eq (hot v rfl).symm
            · exact le_trans hcnt (htlow v hv)

/-- Event block driving exactly one underflow with reload value `1`: the
register wraps (tick at `0`), the pended exception is delivered, and the
register counts back down to `0`. -/
def pump3 : ℕ → List Ev
  | 0 => []
  | n + 1 => Ev.tick :: Ev.irq :: Ev.tick :: pump3 n

lemma mrun_cons (m : MState) (e : Ev) (evs : List Ev) {m' : MState}
    {oc ot : Option ℕ} (h : mstep m e = some (m', oc, ot)) :
    mrun m (e :: evs) =
      match mrun m' evs with
      | none => none
      | some (m'', cs, ts) => some (m'', oc.toList ++ cs, ot.toList ++ ts) := by
  simp only [mrun]
  rw [h]

lemma mrun_pump3 {en : Bool} :
    ∀ (n T : ℕ), T < 2 ^ 32 →
      mrun ⟨⟨1, 0, false, en⟩, false, T⟩ (pump3 n) =
        some (⟨⟨1, 0, false, en⟩, false, (T + n) % 2 ^ 32⟩, [], []) := by
  intro n
  induction n with
  | zero =>
    intro T hT
    have h0 : (T + 0) % 2 ^ 32 = T := by omega
    rw [h0]
    rfl
  | succ n ih =>
    intro T hT
    have ihx := ih ((T + 1) % 2 ^ 32) (Nat.mod_lt _ (by norm_num))
    have hmod : ((T + 1) % 2 ^ 32 + n) % 2 ^ 32 = (T + (n + 1)) % 2 ^ 32 := by
      omega
    rw [hmod] at ihx
    have hs1 : mstep ⟨⟨1, 0, false, en⟩, false, T⟩ Ev.tick =
        some (⟨⟨1, 1, true, en⟩, true, T⟩, none, none) := rfl
    have hs2 : mstep ⟨⟨1, 1, true, en⟩, true, T⟩ Ev.irq =
        some (⟨⟨1, 1, false, en⟩, false, (T + 1) % 2 ^ 32⟩, none, none) := rfl
    have hs3 : mstep ⟨⟨1, 1, false, en⟩, false, (T + 1) % 2 ^ 32⟩ Ev.tick =
        some (⟨⟨1, 0, false, en⟩, false, (T + 1) % 2 ^ 32⟩, none, none) := rfl
    show mrun _ (Ev.tick :: Ev.irq :: Ev.tick :: pump3 n) = _
    rw [mrun_cons _ _ _ hs1, mrun_cons _ _ _ hs2, mrun_cons _ _ _ hs3, ihx]
    simp

lemma mrun_append :
    ∀ (l1 l2 : List Ev) (m : MState),
      mrun m (l1 ++ l2) =
        match mrun m l1 with
        | none => none
        | some (m1, cs1, ts1) =>
          match mrun m1 l2 with
          | none => none
          | some (m2, cs2, ts2) => some (m2, cs1 ++ cs2, ts1 ++ ts2) := by
  intro l1
  induction l1 with
  | nil =>
    intro l2 m
    simp only [List.nil_append, mrun]
    cases h2 : mrun m l2 with
    | none => simp [h2]
    | some z =>
      obtain ⟨m2, cs2, ts2⟩ := z
      simp [h2]
  | cons e l1 ih =>
    intro l2 m
    cases hstep : mstep m e with
    | none =>
      show mrun m (e :: (l1 ++ l2)) = _
      simp only [mrun, hstep]
    | some x =>
      obtain ⟨m', oc, ot⟩ := x
      rw [List.cons_append, mrun_cons m e (l1 ++ l2) hstep,
        mrun_cons m e l1 hstep, ih l2 m']
      cases h1 : mrun m' l1 with
      | none => simp
      | some y =>
        obtain ⟨m1, cs1, ts1⟩ := y
        cases h2 : mrun m1 l2 with
        | none => simp [h2]
        | some z =>
          obtain ⟨m2, cs2, ts2⟩ := z
          simp [h2, List.append_assoc]

lemma mrun_qticks_single (m : MState) (hp : m.pending = false) :
    mrun m [Ev.qticks] = some (m, [], [m.cnt]) := by
  simp [mrun, mstep, hp, ticks, MState.toState]

/-! Claim theorems. -/

/-- C1 (amended): for every consistent snapshot taken inside one critical
section — reload register `R < 2^24`, register value `val ≤ R`, `u32`
tick counter `T`, wrap flag `wrapped` — `clock_cycles` returns
`(R + 1) * T' + (R - val)` where `T' = (T + 1) mod 2^32` when `wrapped`
and `T' = T` otherwise (the in-register increment is wrapping `u32`
arithmetic), and clears the wrap flag; at the underflow boundary
(`wrapped`, `val = R`, no counter overflow) the result is exactly
`(T+1)*(R+1)`, which differs from the undercount `T*(R+1)` and from the
double-count `(T+1)*(R+1) + (R+1)`. -/
theorem c1_reconstruction :
    ∀ (s : State) (sy : Syst), s.systick = some sy → sy.cvr ≤ sy.rvr →
      sy.rvr < 2 ^ 24 → s.counter < 2 ^ 32 →
      clock_cycles s = .ok ((sy.rvr + 1) *
          (if sy.countflag then (s.counter + 1) % 2 ^ 32 else s.counter) +
          (sy.rvr - sy.cvr),
        { s with systick := some { sy with countflag := false } }) ∧
      (sy.countflag = true → sy.cvr = sy.rvr → s.counter + 1 < 2 ^ 32 →
        (sy.rvr + 1) *
            (if sy.countflag then (s.counter + 1) % 2 ^ 32 else s.counter) +
            (sy.rvr - sy.cvr) = (s.counter + 1) * (sy.rvr + 1) ∧
          (s.counter + 1) * (sy.rvr + 1) ≠ s.counter * (sy.rvr + 1) ∧
          (s.counter + 1) * (sy.rvr + 1) ≠
            (s.counter + 1) * (sy.rvr + 1) + (sy.rvr + 1)) := by
  intro s sy hs hcv hr hc
  refine ⟨clock_cycles_eq hs hcv hr hc, ?_⟩
  intro hcf hvr hc1
  refine ⟨?_, ?_, ?_⟩
  · rw [hcf, if_pos rfl, Nat.mod_eq_of_lt hc1, hvr, Nat.sub_self,
      Nat.add_zero, Nat.mul_comm]
  · intro heq
    have := Nat.eq_of_mul_eq_mul_right (show 0 < sy.rvr + 1 by omega) heq
    omega
  · intro heq
    have h2 : (0 : ℕ) = sy.rvr + 1 := by
      have h3 := Nat.add_left_cancel
        (show (s.counter + 1) * (sy.rvr + 1) + 0 =
          (s.counter + 1) * (sy.rvr + 1) + (sy.rvr + 1) by
            rw [Nat.add_zero]; exact heq)
      exact h3
    omega

/-- C1 witness: the boundary snapshot `R = 999`, `val = 999`, `T = 5`,
`wrapped = true` yields exactly `(5+1)*1000 = 6000` cycles. -/
theorem c1_witness :
    clock_cycles ⟨some ⟨999, 999, true, true⟩, 5, 1000000, 1000, none⟩ =
      .ok (6000, ⟨some ⟨999, 999, false, true⟩, 5, 1000000, 1000, none⟩) := by
  have h := (c1_reconstruction ⟨some ⟨999, 999, true, true⟩, 5, 1000000, 1000,
    none⟩ ⟨999, 999, true, true⟩ rfl (by norm_num) (by norm_num)
    (by norm_num)).1
  simpa using h

/-- C1 counterexample: at the reachable snapshot `T = 2^32 - 1`,
`wrapped = true`, `val = 0`, `R = 5`, the code's local `u32` increment
wraps to `0`, so `clock_cycles` returns `5`, not the
`(R+1)*(T+1) + (R-val) = 6 * 2^32 + 5` the claim as stated requires. -/
theorem c1_counterexample :
    clock_cycles ⟨some ⟨5, 0, true, true⟩, 2 ^ 32 - 1, 1000000, 1000, none⟩ =
      .ok (5, ⟨some ⟨5, 0, false, true⟩, 2 ^ 32 - 1, 1000000, 1000, none⟩) ∧
      (5 : ℕ) ≠ (5 + 1) * (2 ^ 32 - 1 + 1) + (5 - 0) := by
  constructor
  · rfl
  · norm_num

/-- C3 (amended): in every bound state whose wrap flag is clear (register
in range, counter in `u32` range), `ticks() * (reload + 1) ≤
clock_cycles() < (ticks() + 1) * (reload + 1)`: the live register
contributes strictly less than one full period. (With the wrap flag set,
`clock_cycles` accounts the pending tick and the stated upper bound
relative to `ticks()` fails.) -/
theorem c3_bounds :
    ∀ (s : State) (sy : Syst), s.systick = some sy → sy.countflag = false →
      sy.cvr ≤ sy.rvr → sy.rvr < 2 ^ 24 → s.counter < 2 ^ 32 →
      ∃ v s', clock_cycles s = .ok (v, s') ∧ ticks s = .ok s.counter ∧
        s.counter * (sy.rvr + 1) ≤ v ∧ v < (s.counter + 1) * (sy.rvr + 1) := by
  intro s sy hs hcf hcv hr hc
  refine ⟨_, _, clock_cycles_eq hs hcv hr hc, rfl, ?_, ?_⟩
  · rw [hcf]
    simp only [Bool.false_eq_true, if_false]
    calc s.counter * (sy.rvr + 1) = (sy.rvr + 1) * s.counter := Nat.mul_comm _ _
      _ ≤ (sy.rvr + 1) * s.counter + (sy.rvr - sy.cvr) := Nat.le_add_right _ _
  · rw [hcf]
    simp only [Bool.false_eq_true, if_false]
    have h2 : sy.rvr - sy.cvr < sy.rvr + 1 := by omega
    calc (sy.rvr + 1) * s.counter + (sy.rvr - sy.cvr) <
          (sy.rvr + 1) * s.counter + (sy.rvr + 1) := Nat.add_lt_add_left h2 _
      _ = (s.counter + 1) * (sy.rvr + 1) := by ring

/-- C3 witness: with `R = 999`, `val = 500`, `T = 5`, no wrap,
`clock_cycles = 5499` lies in `[5000, 6000)`. -/
theorem c3_witness :
    ∃ v s', clock_cycles ⟨some ⟨999, 500, false, true⟩, 5, 1000000, 1000,
        none⟩ = .ok (v, s') ∧
      ticks ⟨some ⟨999, 500, false, true⟩, 5, 1000000, 1000, none⟩ =
        .ok 5 ∧ 5 * (999 + 1) ≤ v ∧ v < (5 + 1) * (999 + 1) :=
  c3_bounds ⟨some ⟨999, 500, false, true⟩, 5, 1000000, 1000, none⟩
    ⟨999, 500, false, true⟩ rfl rfl (by norm_num) (by norm_num) (by norm_num)

/-- C3 counterexample: in the wrapped state `R = 999`, `val = 999`,
`T = 0`, `clock_cycles` returns `1000` while `ticks` returns `0`, so the
claimed upper bound `clock_cycles < (ticks + 1) * (reload + 1) = 1000`
fails. -/
theorem c3_counterexample :
    clock_cycles ⟨some ⟨999, 999, true, true⟩, 0, 1000000, 1000, none⟩ =
      .ok (1000, ⟨some ⟨999, 999, false, true⟩, 0, 1000000, 1000, none⟩) ∧
      ticks ⟨some ⟨999, 999, true, true⟩, 0, 1000000, 1000, none⟩ = .ok 0 ∧
      ¬(1000 : ℕ) < (0 + 1) * (999 + 1) := by
  refine ⟨rfl, rfl, by norm_num⟩

/-- C4 (amended): with the peripheral unbound (before `init` or after
`free`), every operation that unwraps it — `start`, `stop`, `reset`,
`free`, `clock_cycles`, `micros` — panics; `ticks` silently returns the
counter value, and `millis` panics (division by zero) only while the
stored tick frequency is still `0`, i.e. before the first `init`, but
silently returns a value after `free`. -/
theorem c4_uninitialized :
    ∀ s : State, s.systick = none →
      start s = .error .unwrapNone ∧ stop s = .error .unwrapNone ∧
      reset s = .error .unwrapNone ∧ free s = .error .unwrapNone ∧
      clock_cycles s = .error .unwrapNone ∧ micros s = .error .unwrapNone ∧
      ticks s = .ok s.counter ∧
      (s.tickFreq = 0 → millis s = .error .divByZero) ∧
      (s.tickFreq ≠ 0 →
        millis s = .ok (s.counter * 1000 / s.tickFreq % 2 ^ 32)) := by
  intro s hs
  have hcc : clock_cycles s = .error .unwrapNone := by
    unfold clock_cycles
    rw [hs]
  have hmic : micros s = .error .unwrapNone := by
    unfold micros
    rw [hcc]
  refine ⟨?_, ?_, ?_, ?_, hcc, hmic, rfl, ?_, ?_⟩
  · unfold start
    rw [hs]
  · unfold stop
    rw [hs]
  · unfold reset
    rw [hs]
  · unfold free
    rw [hs]
  · intro h0
    simp [millis, h0]
  · intro h0
    simp [millis, h0]

/-- C4 witness: the pristine uninitialized state exhibits all parts of
the amended behaviour. -/
theorem c4_witness :
    start ⟨none, 0, 0, 0, none⟩ = .error .unwrapNone ∧
      micros ⟨none, 0, 0, 0, none⟩ = .error .unwrapNone ∧
      ticks ⟨none, 0, 0, 0, none⟩ = .ok 0 ∧
      millis ⟨none, 0, 0, 0, none⟩ = .error .divByZero := by
  have h := c4_uninitialized ⟨none, 0, 0, 0, none⟩ rfl
  exact ⟨h.1, h.2.2.2.2.2.1, h.2.2.2.2.2.2.1, h.2.2.2.2.2.2.2.1 rfl⟩

/-- C4 counterexample: `ticks()` invoked in the uninitialized state does
not trap — it silently returns the counter value `0`, contradicting the
claim that every query aborts. -/
theorem c4_counterexample :
    ticks ⟨none, 0, 0, 0, none⟩ = .ok 0 ∧
      ∀ e : Panic, ticks ⟨none, 0, 0, 0, none⟩ ≠ .error e := by
  refine ⟨rfl, ?_⟩
  intro e h
  simp [ticks] at h

/-- C5 (amended): `init_with_frequency` panics — a division by zero, at
init time — exactly when `tick_freq = 0`; for `tick_freq ≠ 0` it always
succeeds: `clock_freq = 0` (or any `clock_freq < tick_freq`) makes the
wrapping `u32` subtraction produce `2^32 - 1` silently, and no range
check is applied — the computed reload is truncated to the register's
24 bits. On success the reload register holds
`(clock_freq / tick_freq - 1) % 2^24`, the current-value register and
tick counter are zeroed, the frequencies are stored, and the
counter-enable bit is left untouched (counting does not start). -/
theorem c5_init :
    ∀ (s : State) (syst : Syst) (cf tf : ℕ),
      (tf = 0 → init_with_frequency s syst cf tf = .error .divByZero) ∧
      (tf ≠ 0 →
        init_with_frequency s syst cf tf =
          .ok ⟨some ⟨wsub32 (cf / tf) 1 % 2 ^ 24, 0, false, syst.enabled⟩,
            0, cf, tf, s.callback⟩) := by
  intro s syst cf tf
  constructor
  · intro h0
    simp [init_with_frequency, h0]
  · intro h0
    simp [init_with_frequency, h0]

/-- C5 witness: `tick_freq = 0` panics; `clock_freq = 48_000_000`,
`tick_freq = 1000` succeeds with reload `47999` and counting not
started. -/
theorem c5_witness :
    init_with_frequency ⟨none, 7, 0, 0, none⟩ ⟨0, 0, false, false⟩
        48000000 0 = .error .divByZero ∧
      init_with_frequency ⟨none, 7, 0, 0, none⟩ ⟨0, 0, false, false⟩
        48000000 1000 =
        .ok ⟨some ⟨47999, 0, false, false⟩, 0, 48000000, 1000, none⟩ := by
  constructor
  · exact (c5_init ⟨none, 7, 0, 0, none⟩ ⟨0, 0, false, false⟩ 48000000 0).1 rfl
  · have h := (c5_init ⟨none, 7, 0, 0, none⟩ ⟨0, 0, false, false⟩ 48000000
      1000).2 (by norm_num)
    simpa using h

/-- C5 counterexample: `init` applies no reload range check and no
`clock_freq ≠ 0` check — with `clock_freq = 2^31`, `tick_freq = 1` the
reload `2^31 - 1` exceeds the 24-bit representable maximum `2^24 - 1`
yet init succeeds, and with `clock_freq = 0`, `tick_freq = 1000` init
also succeeds (wrapping reload) instead of failing fatally. -/
theorem c5_counterexample :
    (∃ s', init_with_frequency ⟨none, 0, 0, 0, none⟩ ⟨0, 0, false, false⟩
        (2 ^ 31) 1 = .ok s') ∧
      2 ^ 24 - 1 < 2 ^ 31 / 1 - 1 ∧
      (∃ s', init_with_frequency ⟨none, 0, 0, 0, none⟩ ⟨0, 0, false, false⟩
        0 1000 = .ok s') := by
  refine ⟨⟨_, rfl⟩, by norm_num, ⟨_, rfl⟩⟩

/-- C7: `micros()` equals `clock_cycles()` divided (truncating toward
zero) by `clock_freq / 1_000_000`; concretely, with a 1 MHz clock, 1 kHz
tick (reload 999), 5 underflow events, no pending wrap and live register
500: `clock_cycles = 5499`, `micros = 5499`, `millis = 5`. -/
theorem c7_micros_formula :
    (∀ (s : State), s.clockFreq / 1000000 ≠ 0 →
      ∀ v s', clock_cycles s = .ok (v, s') →
        micros s = .ok (v / (s.clockFreq / 1000000), s')) ∧
      clock_cycles ⟨some ⟨999, 500, false, true⟩, 5, 1000000, 1000, none⟩ =
        .ok (5499, ⟨some ⟨999, 500, false, true⟩, 5, 1000000, 1000, none⟩) ∧
      micros ⟨some ⟨999, 500, false, true⟩, 5, 1000000, 1000, none⟩ =
        .ok (5499, ⟨some ⟨999, 500, false, true⟩, 5, 1000000, 1000, none⟩) ∧
      millis ⟨some ⟨999, 500, false, true⟩, 5, 1000000, 1000, none⟩ =
        .ok 5 := by
  refine ⟨?_, rfl, rfl, rfl⟩
  intro s hmhz v s' hcc
  unfold micros
  rw [hcc]
  simp [hmhz]

/-- C7 witness: the general division formula applied at the concrete
scenario state. -/
theorem c7_witness :
    micros ⟨some ⟨999, 500, false, true⟩, 5, 1000000, 1000, none⟩ =
      .ok (5499 / (1000000 / 1000000),
        ⟨some ⟨999, 500, false, true⟩, 5, 1000000, 1000, none⟩) :=
  c7_micros_formula.1 ⟨some ⟨999, 500, false, true⟩, 5, 1000000, 1000, none⟩
    (by norm_num) 5499
    ⟨some ⟨999, 500, false, true⟩, 5, 1000000, 1000, none⟩ rfl

/-- C9: the handler takes the callback slot out (leaving it empty while
the callback runs), and after the callback returns it unconditionally
stores back the value taken at entry — so a `set_callback` or
`clear_callback` performed inside the callback has no lasting effect. -/
theorem c9_callback_slot_restored :
    ∀ (entry : Option ℕ) (cbWrite : Option (Option ℕ)),
      (callbackSection entry cbWrite).1 = entry ∧
      (entry.isSome = true → (callbackSection entry cbWrite).2 = some none) := by
  intro entry w
  cases entry <;> simp [callbackSection]

/-- C9 witness: a registered callback `7` that performs a
`clear_callback` on itself is restored, and it observed an empty slot. -/
theorem c9_witness :
    (callbackSection (some 7) (some none)).1 = some 7 ∧
      (callbackSection (some 7) (some none)).2 = some none :=
  ⟨(c9_callback_slot_restored (some 7) (some none)).1,
    (c9_callback_slot_restored (some 7) (some none)).2 rfl⟩

/-- C10 (amended): for every bound (initialized) state with
`clock_freq < 1_000_000` the divisor `clock_freq / 1_000_000` truncates
to `0` and `micros` panics with a division by zero; with
`clock_freq ≥ 1_000_000` the division is well-defined. In the
uninitialized state `micros` panics too, but inside `clock_cycles` at
the peripheral unwrap, before the division is reached. -/
theorem c10_micros_divzero :
    ∀ (s : State) (sy : Syst), s.systick = some sy →
      (s.clockFreq < 1000000 → micros s = .error .divByZero) ∧
      (1000000 ≤ s.clockFreq → ∃ v s', micros s = .ok (v, s')) := by
  intro s sy hs
  unfold micros clock_cycles
  rw [hs]
  constructor
  · intro hlt
    have h0 : s.clockFreq / 1000000 = 0 := Nat.div_eq_of_lt hlt
    simp [h0]
  · intro hge
    have h0 : ¬s.clockFreq / 1000000 = 0 := by
      have h1 : 1000000 / 1000000 ≤ s.clockFreq / 1000000 :=
        Nat.div_le_div_right hge
      simp at h1
      omega
    simp [h0]

/-- C10 witness: an initialized 1 kHz-clock state panics with division by
zero; an initialized 48 MHz state succeeds. -/
theorem c10_witness :
    micros ⟨some ⟨999, 0, false, true⟩, 0, 1000, 1000, none⟩ =
        .error .divByZero ∧
      ∃ v s', micros ⟨some ⟨47999, 0, false, true⟩, 0, 48000000, 1000,
        none⟩ = .ok (v, s') :=
  ⟨(c10_micros_divzero ⟨some ⟨999, 0, false, true⟩, 0, 1000, 1000, none⟩
      ⟨999, 0, false, true⟩ rfl).1 (by norm_num),
    (c10_micros_divzero ⟨some ⟨47999, 0, false, true⟩, 0, 48000000, 1000,
      none⟩ ⟨47999, 0, false, true⟩ rfl).2 (by norm_num)⟩

/-- C10 counterexample: in the uninitialized state (clock frequency `0`)
`micros` panics at the peripheral unwrap inside `clock_cycles`, not at
the division by zero the claim describes. -/
theorem c10_counterexample :
    micros ⟨none, 0, 0, 0, none⟩ = .error .unwrapNone ∧
      Panic.unwrapNone ≠ Panic.divByZero := by
  exact ⟨rfl, by decide⟩

/-- C2 (amended): starting from a reset point (counter and register
zeroed, no wrap pending), for every valid sequence of hardware cycles,
interrupt deliveries and mainline queries in which fewer than `2^32`
underflow events occur (so the `u32` tick counter never wraps), the
successive `clock_cycles()` outputs are non-decreasing and the
successive `ticks()` outputs are non-decreasing. -/
theorem c2_monotonic :
    ∀ (R : ℕ) (en : Bool) (evs : List Ev) (mf : MState) (cs ts : List ℕ),
      R < 2 ^ 24 →
      mrun ⟨⟨R, 0, false, en⟩, false, 0⟩ evs = some (mf, cs, ts) →
      wrapsIn ⟨⟨R, 0, false, en⟩, false, 0⟩ evs < 2 ^ 32 →
      List.Chain' (· ≤ ·) cs ∧ List.Chain' (· ≤ ·) ts := by
  intro R en evs mf cs ts hR hrun hw
  have hinv : MInv ⟨⟨R, 0, false, en⟩, false, 0⟩ :=
    ⟨fun h => Bool.noConfusion h, Nat.zero_le _, hR⟩
  obtain ⟨h1, _, h3, _⟩ := mrun_mono evs _ mf cs ts hinv hrun
    (by simpa using hw)
  exact ⟨h1, h3⟩

/-- C2 witness: a concrete run — underflow, interrupt, two queries, a
further cycle, another query — produces the non-decreasing outputs
`clock_cycles: [5, 6]` and `ticks: [1]`. -/
theorem c2_witness :
    List.Chain' (· ≤ ·) [5, 6] ∧ List.Chain' (· ≤ ·) ([1] : List ℕ) :=
  c2_monotonic 3 false
    [Ev.tick, Ev.irq, Ev.tick, Ev.qcycles, Ev.qticks, Ev.tick, Ev.qcycles]
    ⟨⟨3, 1, false, false⟩, false, 1⟩ [5, 6] [1] (by norm_num) (by rfl)
    (by decide)

/-- C2 counterexample: with reload `1`, a valid run of `2^32` underflow
events between two resets makes `ticks()` read `2^32 - 1` and then `0`:
the successive `ticks()` outputs decrease, refuting the claim as stated
for the `u32` counter. -/
theorem c2_counterexample :
    mrun ⟨⟨1, 0, false, false⟩, false, 0⟩
        (pump3 (2 ^ 32 - 1) ++ Ev.qticks :: (pump3 1 ++ [Ev.qticks])) =
      some (⟨⟨1, 0, false, false⟩, false, 0⟩, [], [2 ^ 32 - 1, 0]) ∧
      ¬List.Chain' (· ≤ ·) [2 ^ 32 - 1, (0 : ℕ)] := by
  constructor
  · have h1 := @mrun_pump3 false (2 ^ 32 - 1) 0 (by norm_num)
    rw [show (0 + (2 ^ 32 - 1)) % 2 ^ 32 = 2 ^ 32 - 1 by norm_num] at h1
    have h3 := @mrun_pump3 false 1 (2 ^ 32 - 1) (by norm_num)
    rw [show (2 ^ 32 - 1 + 1) % 2 ^ 32 = 0 by norm_num] at h3
    have hq1 : mstep ⟨⟨1, 0, false, false⟩, false, 2 ^ 32 - 1⟩ Ev.qticks =
        some (⟨⟨1, 0, false, false⟩, false, 2 ^ 32 - 1⟩, none,
          some (2 ^ 32 - 1)) := rfl
    have hfin : mrun ⟨⟨1, 0, false, false⟩, false, 0⟩ [Ev.qticks] =
        some (⟨⟨1, 0, false, false⟩, false, 0⟩, [], [0]) :=
      mrun_qticks_single _ rfl
    simp only [mrun_append, h1, mrun_cons _ _ _ hq1, h3, hfin]
    simp
  · intro hch
    rw [List.chain'_cons] at hch
    exact absurd hch.1 (by norm_num)

/-- C6 (amended): for `N` consecutive underflow events with a callback
registered throughout (peripheral bound, wrap flag clear, `u32` counter
`c0`), the callback is invoked exactly `N` times, inside the handler and
after the counter increment, and the `k`-th invocation (0-indexed
`k < N`) receives the post-increment value `(c0 + k + 1) mod 2^32` — a
value that always includes the current event. -/
theorem c6_callback_delivery :
    ∀ (N : ℕ) (s : State) (sy : Syst) (cb : ℕ), s.systick = some sy →
      sy.countflag = false → s.callback = some cb → s.counter < 2 ^ 32 →
      ∃ s' log, runHandlers s N = .ok (s', log) ∧ log.length = N ∧
        ∀ k, k < N → log.getD k 0 = (s.counter + k + 1) % 2 ^ 32 := by
  intro N s sy cb hs hcf hcb hc
  refine ⟨_, _, runHandlers_with_callback hcf N s hs hcb hc, by simp, ?_⟩
  intro k hk
  rw [List.getD_eq_getElem?_getD, List.getElem?_map, List.getElem?_range hk]
  rfl

/-- C6 witness: three events from a fresh registration deliver callback
arguments `1`, `2`, `3`. -/
theorem c6_witness :
    ∃ s' log, runHandlers ⟨some ⟨999, 0, false, true⟩, 0, 1000000, 1000,
        some 0⟩ 3 = .ok (s', log) ∧ log.length = 3 ∧
      ∀ k, k < 3 → log.getD k 0 = (0 + k + 1) % 2 ^ 32 :=
  c6_callback_delivery 3 ⟨some ⟨999, 0, false, true⟩, 0, 1000000, 1000,
    some 0⟩ ⟨999, 0, false, true⟩ 0 rfl rfl rfl (by norm_num)

/-- C6 counterexample: over `2^32` consecutive events from registration
at counter `0`, the `2^32`-th invocation receives `0` (the `u32` counter
wrapped), not the value `2^32` the claim's 1-indexed numbering
requires. -/
theorem c6_counterexample :
    ∃ s', runHandlers ⟨some ⟨999, 0, false, true⟩, 0, 1000000, 1000, some 0⟩
        (2 ^ 32) = .ok (s',
        (List.range (2 ^ 32)).map (fun k => (0 + k + 1) % 2 ^ 32)) ∧
      ((List.range (2 ^ 32)).map (fun k => (0 + k + 1) % 2 ^ 32)).getD
        (2 ^ 32 - 1) 0 = 0 ∧ (0 : ℕ) ≠ 2 ^ 32 := by
  refine ⟨_, runHandlers_with_callback rfl (2 ^ 32)
    ⟨some ⟨999, 0, false, true⟩, 0, 1000000, 1000, some 0⟩ rfl rfl
    (by norm_num), ?_, by norm_num⟩
  rw [List.getD_eq_getElem?_getD, List.getElem?_map,
    List.getElem?_range (by norm_num : 2 ^ 32 - 1 < 2 ^ 32)]
  simp only [Option.map_some', Option.getD_some]
  omega

/-- C8 (amended): the tick counter is a `u32`, so after `N` underflow
events since reset `ticks()` returns `N mod 2^32` (it wraps at `2^32`,
not `2^64`), and `millis()` computes `ticks * 1000 / tick_freq` in `u64`
but truncates the result to 32 bits. -/
theorem c8_u32_counters :
    ∀ (N : ℕ) (s : State) (sy : Syst), s.systick = some sy →
      sy.countflag = false → s.callback = none → s.counter = 0 →
      ∃ s', runHandlers s N = .ok (s', []) ∧ ticks s' = .ok (N % 2 ^ 32) ∧
        (s.tickFreq ≠ 0 →
          millis s' = .ok (N % 2 ^ 32 * 1000 / s.tickFreq % 2 ^ 32)) := by
  intro N s sy hs hcf hcb hc0
  have h := runHandlers_no_callback hcf N s hs hcb (by rw [hc0]; norm_num)
  refine ⟨_, h, ?_, ?_⟩
  · simp [ticks, hc0]
  · intro h0
    simp [millis, h0, hc0]

/-- C8 witness: five events from reset give `ticks = 5` and
`millis = 5` at a 1 kHz tick rate. -/
theorem c8_witness :
    ∃ s', runHandlers ⟨some ⟨999, 0, false, true⟩, 0, 1000000, 1000, none⟩ 5 =
        .ok (s', []) ∧ ticks s' = .ok (5 % 2 ^ 32) ∧
      ((1000 : ℕ) ≠ 0 → millis s' = .ok (5 % 2 ^ 32 * 1000 / 1000 % 2 ^ 32)) :=
  c8_u32_counters 5 ⟨some ⟨999, 0, false, true⟩, 0, 1000000, 1000, none⟩
    ⟨999, 0, false, true⟩ rfl rfl rfl rfl

/-- C8 counterexample: after `2^32` underflow events (`2^32 < 2^64`) the
counter has wrapped and `ticks()` returns `0`, not `2^32`. -/
theorem c8_counterexample :
    ∃ s', runHandlers ⟨some ⟨999, 0, false, true⟩, 0, 1000000, 1000, none⟩
        (2 ^ 32) = .ok (s', []) ∧ ticks s' = .ok 0 ∧ (0 : ℕ) ≠ 2 ^ 32 := by
  have h := @runHandlers_no_callback ⟨999, 0, false, true⟩ rfl (2 ^ 32)
    ⟨some ⟨999, 0, false, true⟩, 0, 1000000, 1000, none⟩ rfl rfl (by norm_num)
  refine ⟨_, h, ?_, by norm_num⟩
  simp [ticks]

end SysTickCrate
